import Mathlib

/-!
Verification development for the ControlTower authorization gate and
atomic transaction orchestrator.

The definitions below are a shallow embedding of:
- `app/services/authorization_service.py` (`AuthorizationService`),
- `app/repositories/security_role_repository.py` and
  `app/repositories/organization_repository.py` (lookup queries),
- `app/repositories/base.py` (`BaseRepository.get_by_id/create/update/delete`),
- `app/middleware/transaction.py` (`db_transaction`, `TransactionManager.execute_atomic`,
  `is_in_transaction` / `set_transaction_context`).

Machine-level conventions: the SQLAlchemy session is modelled as a pair of
row tables (`base` = committed/persisted rows, `view` = the state visible to
queries issued on the session, i.e. including flushed-but-uncommitted
changes), plus a `getMisses` set modelling the identifier-typing quirk under
which `session.get` can fail to return a row that a filtered query does
return (the reason for the fallback in `BaseRepository.get_by_id`), and a
`failOnCommit` flag modelling a store that rejects a commit (constraint
checked at commit time).  Python exception classes are modelled as the
disjoint constructors of `Exc`; string case functions are modelled on ASCII.
-/

namespace ControlTower

/-- Python `str.upper()` restricted to ASCII. -/
def pyUpper (s : String) : String :=
  String.mk (s.data.map Char.toUpper)

/-- Python `str.capitalize()` restricted to ASCII: first character upper-cased,
every remaining character lower-cased. -/
def pyCapitalize (s : String) : String :=
  match s.data with
  | [] => ""
  | c :: cs => String.mk (Char.toUpper c :: cs.map Char.toLower)

/-- A role's permission bundle: resource name to allowed action names
(the JSON `permissions` column of `security_roles`). -/
abbrev PermissionBundle := List (String × List String)

/-- The `RoleType` enumeration from `app/models/security_role.py`. -/
inductive RoleType
  | system
  | organization
deriving DecidableEq, BEq

/-- A `SecurityRole` row from `app/models/security_role.py`
(`name` unique, `status`, `type`, `permissions`). -/
structure SecurityRole where
  name : String
  status : String
  roleType : RoleType
  permissions : PermissionBundle
deriving DecidableEq, BEq

/-- The `OrganizationRole` enumeration from `app/models/organization.py`. -/
inductive OrganizationRole
  | owner
  | admin
  | member
  | viewer
deriving DecidableEq, BEq

/-- The `.value` of the `OrganizationRole` enum members. -/
def OrganizationRole.value : OrganizationRole → String
  | .owner => "owner"
  | .admin => "admin"
  | .member => "member"
  | .viewer => "viewer"

/-- An `OrganizationUser` membership row from `app/models/organization.py`
(unique per (organization_id, user_id); `role` is enum-typed, so a membership
always carries one of the four enum values). -/
structure OrganizationUser where
  organization_id : String
  user_id : String
  role : OrganizationRole
deriving DecidableEq, BEq

/-- The tables consulted by `AuthorizationService`: the `security_roles`
table and the `organization_users` membership table, each in insertion order
(`.first()` returns the first matching row). -/
structure AuthDB where
  security_roles : List SecurityRole
  organization_users : List OrganizationUser
deriving DecidableEq

/-- Model of `SecurityRoleRepository.get_by_name`: `get_by_field("name", name)`, i.e.
the first row of `security_roles` whose `name` equals the argument, with no
filter on `status`, `type` or any organization association. -/
def get_by_name (db : AuthDB) (name : String) : Option SecurityRole :=
  db.security_roles.find? (fun r => r.name == name)

/-- Model of `OrganizationRepository.get_user_role_in_organization` composed with the
`.value` projection done in
`AuthorizationService.get_user_role_in_organization`: the role value string
of the first membership row matching (organization_id, user_id), or `none`. -/
def get_user_role_in_organization (db : AuthDB) (user_id organization_id : String) :
    Option String :=
  (db.organization_users.find?
      (fun m => m.organization_id == organization_id && m.user_id == user_id)).map
    (fun m => m.role.value)

/-- Model of `AuthorizationService.get_role_permissions`: exact-name lookup, then the
capitalized form, then the upper-cased form; an empty bundle when none of the
three matches. -/
def get_role_permissions (db : AuthDB) (role_name : String) : PermissionBundle :=
  match get_by_name db role_name with
  | some role => role.permissions
  | none =>
    match get_by_name db (pyCapitalize role_name) with
    | some role => role.permissions
    | none =>
      match get_by_name db (pyUpper role_name) with
      | some role => role.permissions
      | none => []

/-- The role found by the three-step fallback chain of
`get_role_permissions`, before the `.permissions` projection. -/
def chainFind (db : AuthDB) (role_name : String) : Option SecurityRole :=
  match get_by_name db role_name with
  | some role => some role
  | none =>
    match get_by_name db (pyCapitalize role_name) with
    | some role => some role
    | none => get_by_name db (pyUpper role_name)

/-- Python `permissions.get(resource, [])`. -/
def lookupResource (permissions : PermissionBundle) (resource : String) : List String :=
  match permissions.find? (fun p => p.1 == resource) with
  | some p => p.2
  | none => []

/-- Model of `AuthorizationService.check_permission`: membership-role lookup, then the
role's bundle via the fallback chain; `False` when there is no role or the
bundle is empty, otherwise `action in permissions.get(resource, [])`. -/
def check_permission (db : AuthDB) (user_id organization_id resource action : String) :
    Bool :=
  match get_user_role_in_organization db user_id organization_id with
  | none => false
  | some role_name =>
    let permissions := get_role_permissions db role_name
    if permissions.isEmpty then false
    else (lookupResource permissions resource).contains action

/-- The payload of the `ForbiddenError` raised by
`AuthorizationService.authorize_request` (the class itself lives in
`app/core/exceptions.py`; the two constructors record exactly the data the
service interpolates into the two f-string messages). -/
inductive ForbiddenMsg
  | notMember (organization_id : String)
  | insufficientPermission (role_name action resource : String)
deriving DecidableEq

/-- Model of `AuthorizationService.authorize_request`: returns the user id when
`check_permission` passes; otherwise re-looks-up the membership role and
raises the no-membership or insufficient-permission `ForbiddenError`. -/
def authorize_request (db : AuthDB) (user_id organization_id resource action : String) :
    Except ForbiddenMsg String :=
  if check_permission db user_id organization_id resource action then
    .ok user_id
  else
    match get_user_role_in_organization db user_id organization_id with
    | none => .error (.notMember organization_id)
    | some user_role => .error (.insufficientPermission user_role action resource)

/-- Version of `check_permission` instrumented with query counters: the pair counts
(membership lookups, role-bundle lookups) issued during the call. -/
def check_permission_counts (db : AuthDB) (user_id organization_id resource action : String) :
    Bool × Nat × Nat :=
  match get_user_role_in_organization db user_id organization_id with
  | none => (false, 1, 0)
  | some role_name =>
    let permissions := get_role_permissions db role_name
    if permissions.isEmpty then (false, 1, 1)
    else ((lookupResource permissions resource).contains action, 1, 1)

/-- Version of `authorize_request` instrumented with query counters, mirroring the
source control flow: the denial path performs one more membership lookup and
(when a role exists) one more role-bundle lookup to build the error message. -/
def authorize_request_counts (db : AuthDB)
    (user_id organization_id resource action : String) :
    Except ForbiddenMsg String × Nat × Nat :=
  match check_permission_counts db user_id organization_id resource action with
  | (true, m, b) => (.ok user_id, m, b)
  | (false, m, b) =>
    match get_user_role_in_organization db user_id organization_id with
    | none => (.error (.notMember organization_id), m + 1, b)
    | some user_role =>
      let _diagnostic := get_role_permissions db user_role
      (.error (.insufficientPermission user_role action resource), m + 1, b + 1)

/-- Per-resource set union of two permission bundles. -/
def mergeBundles (b1 b2 : PermissionBundle) : PermissionBundle :=
  ((b1.map Prod.fst) ++ (b2.map Prod.fst)).dedup.map
    (fun res => (res, (lookupResource b1 res ++ lookupResource b2 res).dedup))

/-- Modelled from the spec: `effective_permissions(user, organization)` —
"merges every system-scope role's bundle with the organization-scope role
assigned to that organization; result is the set union per resource".  The
source has no organization-scoped role-assignment table (security roles carry
no organization association at all), so the role resolved from the caller's
membership in the organization stands in for "the organization-scope role
assigned to that organization". -/
def effective_permissions_spec (db : AuthDB) (user_id organization_id : String) :
    PermissionBundle :=
  let systemBundles :=
    (db.security_roles.filter
        (fun r => r.roleType == RoleType.system && r.status == "active")).map
      SecurityRole.permissions
  let orgBundle :=
    match get_user_role_in_organization db user_id organization_id with
    | none => []
    | some role_name =>
      match chainFind db role_name with
      | some role => role.permissions
      | none => []
  mergeBundles (systemBundles.foldl mergeBundles []) orgBundle

/-! ## Session and transaction model -/

/-- A database field value; `none` is SQL NULL. -/
abbrev Val := Nat

/-- A row: column name to value (`none` = NULL). -/
abbrev Row := List (String × Option Val)

/-- The Python exception classes distinguished by the `except` clauses of
`TransactionManager.execute_atomic`, as disjoint constructors (`ConflictError`
from `app/core/exceptions.py`; `IntegrityError`, `DataError` and other
`SQLAlchemyError`s from SQLAlchemy; `fastapi.HTTPException`; any other
exception). -/
inductive Exc
  | conflictError (msg : String)
  | integrityError (msg : String)
  | dataError (msg : String)
  | sqlalchemyError (msg : String)
  | httpExc (statusCode : Nat) (detail : String)
  | otherExc (msg : String)
deriving DecidableEq

/-- Whether the exception is already a `fastapi.HTTPException`. -/
def Exc.isHTTP : Exc → Bool
  | .httpExc _ _ => true
  | _ => false

/-- The `HTTPException` surfaced to the caller of `execute_atomic`. -/
structure HTTPError where
  statusCode : Nat
  detail : String
deriving DecidableEq

/-- The `except` clauses of `TransactionManager.execute_atomic` in source
order: `ConflictError` becomes 409 with its message, `IntegrityError` 409
with a generic detail, `DataError` 400, other `SQLAlchemyError`s 500 with a
generic detail, an `HTTPException` is re-raised as-is, anything else 500
with its message. -/
def mapExc : Exc → HTTPError
  | .conflictError msg => ⟨409, msg⟩
  | .integrityError _ => ⟨409, "Operation violates database constraints"⟩
  | .dataError _ => ⟨400, "Invalid data provided"⟩
  | .sqlalchemyError _ => ⟨500, "Database operation failed"⟩
  | .httpExc statusCode detail => ⟨statusCode, detail⟩
  | .otherExc msg => ⟨500, msg⟩

/-- The four taxonomy kinds named by the spec for failures surfaced by
`execute_atomic`. -/
inductive TaxKind
  | conflict
  | integrityViolation
  | invalidData
  | unexpected
deriving DecidableEq

/-- Which taxonomy kind an exception raised inside `execute_atomic` is mapped
to; `none` for an `HTTPException`, which the code re-raises unchanged instead
of remapping. -/
def excTaxonomy : Exc → Option TaxKind
  | .conflictError _ => some .conflict
  | .integrityError _ => some .integrityViolation
  | .dataError _ => some .invalidData
  | .sqlalchemyError _ => some .unexpected
  | .httpExc _ _ => none
  | .otherExc _ => some .unexpected

/-- The SQLAlchemy session: `base` is the committed (persisted) table,
`view` is the state seen by queries on the session (committed rows plus
flushed-but-uncommitted changes), `getMisses` is the set of identifiers on
which `session.get` spuriously misses (the identifier-typing quirk that
motivates the query fallback in `BaseRepository.get_by_id`), and
`failOnCommit` makes `commit()` raise (a constraint checked at commit
time). -/
structure Session where
  base : List (Nat × Row)
  view : List (Nat × Row)
  getMisses : List Nat
  failOnCommit : Option Exc
deriving DecidableEq

/-- Model of `session.commit()`: persists the session-visible state, or raises. -/
def Session.commit (s : Session) : Except Exc Session :=
  match s.failOnCommit with
  | some e => .error e
  | none => .ok { s with base := s.view }

/-- Model of `session.rollback()`: discards every uncommitted change. -/
def Session.rollback (s : Session) : Session :=
  { s with view := s.base }

/-- Model of `session.get(model, entity_id)`: sees the session state except on the
identifiers where the typing quirk makes it miss. -/
def Session.directGet (s : Session) (entity_id : Nat) : Option Row :=
  if s.getMisses.contains entity_id then none
  else (s.view.find? (fun p => p.1 == entity_id)).map (fun p => p.2)

/-- Model of `db.query(model).filter(model.id == entity_id).first()`: always sees the
session-visible state. -/
def Session.queryFirst (s : Session) (entity_id : Nat) : Option Row :=
  (s.view.find? (fun p => p.1 == entity_id)).map (fun p => p.2)

/-- Model of `BaseRepository.get_by_id`: `session.get`, then — only when
`is_in_transaction()` — the filtered-query fallback. -/
def get_by_id (inTx : Bool) (s : Session) (entity_id : Nat) : Option Row :=
  match s.directGet entity_id with
  | some r => some r
  | none => if inTx then s.queryFirst entity_id else none

/-- The `auto_commit` default of `BaseRepository.create/update`:
`if auto_commit is None: auto_commit = not is_in_transaction()`. -/
def resolveAutoCommit (auto_commit : Option Bool) (inTx : Bool) : Bool :=
  match auto_commit with
  | some b => b
  | none => !inTx

/-- Replace the (first) row stored under `entity_id` — the mutation of the
identity-mapped ORM object performed by `setattr` plus flush. -/
def replaceRow (l : List (Nat × Row)) (entity_id : Nat) (r : Row) : List (Nat × Row) :=
  match l with
  | [] => []
  | p :: rest =>
    if p.1 == entity_id then (entity_id, r) :: rest
    else p :: replaceRow rest entity_id r

/-- Model of `setattr(db_obj, field, value)`: overwrite the field in place (append it
when the object does not yet carry it). -/
def setField (row : Row) (f : String) (v : Option Val) : Row :=
  match row with
  | [] => [(f, v)]
  | p :: rest =>
    if p.1 == f then (f, v) :: rest
    else p :: setField rest f v

/-- The kwargs loop of `BaseRepository.update`:
`for field, value in kwargs.items(): if value is not None: setattr(...)`. -/
def applySetattrs (row : Row) : List (String × Option Val) → Row
  | [] => row
  | (f, v) :: rest =>
    match v with
    | none => applySetattrs row rest
    | some x => applySetattrs (setField row f (some x)) rest

/-- Observable events of one `execute_atomic` call: a step starting to run,
a commit issued from inside a repository write, and the single commit or
rollback issued by `db_transaction` itself. -/
inductive Event
  | stepRun (i : Nat)
  | stepCommit
  | orchCommit
  | orchRollback
deriving DecidableEq

/-- Whether the event is a step execution. -/
def Event.isStepRun : Event → Bool
  | .stepRun _ => true
  | _ => false

/-- The state threaded through one request: the session, the thread-local
transaction-context flag (`_transaction_context.active`), and the event
log. -/
structure ReqState where
  sess : Session
  ctx : Bool
  log : List Event
deriving DecidableEq

/-- The repository calls a unit-of-work step can make, plus raising an
exception (a failing service call inside a step). -/
inductive RepoOp
  | createOp (entity_id : Nat) (row : Row) (auto_commit : Option Bool)
  | updateOp (entity_id : Nat) (kwargs : List (String × Option Val)) (auto_commit : Option Bool)
  | deleteOp (entity_id : Nat)
  | raiseOp (e : Exc)
deriving DecidableEq

/-- One repository call, as implemented by `BaseRepository`:
`create` adds the row and commits or flushes according to the resolved
`auto_commit`; `update` fetches via `get_by_id`, applies the non-`None`
kwargs and commits or flushes likewise; `delete` fetches, removes the row
and **always commits** (it has no `auto_commit` parameter); on a commit
failure the `except` clause rolls back (for `delete`, and for `create`/
`update` when `auto_commit` resolved true) and re-raises. -/
def runOp (g : ReqState) : RepoOp → ReqState × Option Exc
  | .createOp entity_id row auto_commit =>
    let auto := resolveAutoCommit auto_commit g.ctx
    let s1 : Session := { g.sess with view := g.sess.view ++ [(entity_id, row)] }
    if auto then
      match s1.commit with
      | .ok s2 => ({ g with sess := s2, log := g.log ++ [.stepCommit] }, none)
      | .error e => ({ g with sess := s1.rollback }, some e)
    else
      ({ g with sess := s1 }, none)
  | .updateOp entity_id kwargs auto_commit =>
    let auto := resolveAutoCommit auto_commit g.ctx
    match get_by_id g.ctx g.sess entity_id with
    | none => (g, none)
    | some row =>
      let s1 : Session :=
        { g.sess with view := replaceRow g.sess.view entity_id (applySetattrs row kwargs) }
      if auto then
        match s1.commit with
        | .ok s2 => ({ g with sess := s2, log := g.log ++ [.stepCommit] }, none)
        | .error e => ({ g with sess := s1.rollback }, some e)
      else
        ({ g with sess := s1 }, none)
  | .deleteOp entity_id =>
    match get_by_id g.ctx g.sess entity_id with
    | none => (g, none)
    | some _ =>
      let s1 : Session :=
        { g.sess with view := g.sess.view.filter (fun p => !(p.1 == entity_id)) }
      match s1.commit with
      | .ok s2 => ({ g with sess := s2, log := g.log ++ [.stepCommit] }, none)
      | .error e => ({ g with sess := s1.rollback }, some e)
  | .raiseOp e => (g, some e)

/-- Run a list of repository calls, stopping at the first raised exception. -/
def runOps (g : ReqState) : List RepoOp → ReqState × Option Exc
  | [] => (g, none)
  | op :: rest =>
    match runOp g op with
    | (g1, none) => runOps g1 rest
    | (g1, some e) => (g1, some e)

/-- A zero-argument step submitted to `execute_atomic`: the repository calls
it performs and the value it returns when it completes. -/
structure Step where
  ops : List RepoOp
  ret : Nat
deriving DecidableEq

/-- The `for operation in operations` loop of `execute_atomic`: run each step
in submission order, carrying the last completed step's return value, and
stop at the first raised exception. -/
def runStepsAux (g : ReqState) (acc : Option Nat) (i : Nat) :
    List Step → ReqState × Except Exc (Option Nat)
  | [] => (g, .ok acc)
  | st :: rest =>
    let g1 : ReqState := { g with log := g.log ++ [.stepRun i] }
    match runOps g1 st.ops with
    | (g2, none) => runStepsAux g2 (some st.ret) (i + 1) rest
    | (g2, some e) => (g2, .error e)

/-- The value of the `result` variable after the loop: the last step's
return value, or the initial `None` when the list is empty. -/
def lastRet (acc : Option Nat) : List Step → Option Nat
  | [] => acc
  | st :: rest => lastRet (some st.ret) rest

instance {ε α : Type} [DecidableEq ε] [DecidableEq α] : DecidableEq (Except ε α) := fun x y =>
  match x, y with
  | .ok a, .ok b =>
    if h : a = b then .isTrue (by rw [h]) else .isFalse (by simp [h])
  | .error a, .error b =>
    if h : a = b then .isTrue (by rw [h]) else .isFalse (by simp [h])
  | .ok _, .error _ => .isFalse (by simp)
  | .error _, .ok _ => .isFalse (by simp)

/-- The outcome of one `execute_atomic` call: the mapped result or error,
the session, the transaction-context flag after the call, and the event
log. -/
structure AtomicOutcome where
  result : Except HTTPError (Option Nat)
  sess : Session
  ctxActive : Bool
  log : List Event
deriving DecidableEq

/-- Model of `TransactionManager.execute_atomic` over `db_transaction`:
set the context flag, run the steps in order; on success commit once, on any
raise (from a step or from the commit itself) roll back and map the
exception through the `except` chain; the `finally` clause clears the
context flag on every exit path. -/
def execute_atomic (db : Session) (steps : List Step) : AtomicOutcome :=
  let g0 : ReqState := ⟨db, true, []⟩
  match runStepsAux g0 none 0 steps with
  | (g1, .ok res) =>
    match g1.sess.commit with
    | .ok s2 => ⟨.ok res, s2, false, g1.log ++ [.orchCommit]⟩
    | .error e => ⟨.error (mapExc e), g1.sess.rollback, false, g1.log ++ [.orchRollback]⟩
  | (g1, .error e) => ⟨.error (mapExc e), g1.sess.rollback, false, g1.log ++ [.orchRollback]⟩

/-- A repository call that defers its commit to the enclosing unit: a
`create` or `update` whose `auto_commit` is not explicitly `True` (inside an
active context the default resolves to deferred), or a raise, which writes
nothing.  `delete` never defers. -/
def defersOp : RepoOp → Bool
  | .createOp _ _ auto_commit => !(auto_commit == some true)
  | .updateOp _ _ auto_commit => !(auto_commit == some true)
  | .deleteOp _ => false
  | .raiseOp _ => true

/-- Field projection of an entity: `none` when the object has no such field,
`some none` when the field is stored NULL. -/
def getField (row : Row) (f : String) : Option (Option Val) :=
  (row.find? (fun p => p.1 == f)).map (fun p => p.2)

/-- Projection of the kwargs supplied to `update`: `none` when the field is
not named in the call, `some none` when it is supplied as Python `None`. -/
def lookupKw (kwargs : List (String × Option Val)) (f : String) : Option (Option Val) :=
  (kwargs.find? (fun p => p.1 == f)).map (fun p => p.2)

/-- A small seeded table used to instantiate the authorization theorems. -/
def c5db : AuthDB :=
  ⟨[⟨"OWNER", "active", .system, [("agents", ["read"])]⟩],
   [⟨"org1", "u1", .owner⟩]⟩

/-- The table for the C2 counterexample: two active system-scope roles with
different bundles, and one membership. -/
def c2db : AuthDB :=
  ⟨[⟨"OWNER", "active", .system, [("agents", ["read"])]⟩,
    ⟨"HELPER", "active", .system, [("llms", ["delete"])]⟩],
   [⟨"org1", "u1", .owner⟩]⟩

/-- A request state inside an active transaction context: row 1 is
persisted, row 2 was flushed by an earlier step of the same unit but not
committed. -/
def c6state : ReqState :=
  ⟨⟨[(1, [("x", some 1)])], [(1, [("x", some 1)]), (2, [("y", some 2)])], [], none⟩,
   true, []⟩

/-- A session whose persisted table holds exactly row 1. -/
def c1db : Session :=
  ⟨[(1, [("x", some 1)])], [(1, [("x", some 1)])], [], none⟩

/-! ## Theorems -/

/-- The function `get_role_permissions` projects the permissions of the role found by the
fallback chain. -/
lemma get_role_permissions_eq_chainFind (db : AuthDB) (n : String) :
    get_role_permissions db n = ((chainFind db n).map SecurityRole.permissions).getD [] := by
  unfold get_role_permissions chainFind
  cases get_by_name db n <;>
    cases get_by_name db (pyCapitalize n) <;>
      cases get_by_name db (pyUpper n) <;> simp

/-- C5: permission lookup tries the exact name, then the capitalized form,
then the all-uppercase form, in that fixed order, returns the empty bundle
when none match, and a role stored as "OWNER" is found whether requested as
"owner", "Owner" or "OWNER". -/
theorem get_role_permissions_fallback_order (db : AuthDB) (r : SecurityRole)
    (h1 : get_by_name db "owner" = none)
    (h2 : get_by_name db "Owner" = none)
    (h3 : get_by_name db "OWNER" = some r) :
    (get_role_permissions db "owner" = r.permissions ∧
     get_role_permissions db "Owner" = r.permissions ∧
     get_role_permissions db "OWNER" = r.permissions) ∧
    (∀ n rr, get_by_name db n = some rr →
      get_role_permissions db n = rr.permissions) ∧
    (∀ n rr, get_by_name db n = none →
      get_by_name db (pyCapitalize n) = some rr →
      get_role_permissions db n = rr.permissions) ∧
    (∀ n rr, get_by_name db n = none →
      get_by_name db (pyCapitalize n) = none →
      get_by_name db (pyUpper n) = some rr →
      get_role_permissions db n = rr.permissions) ∧
    (∀ n, get_by_name db n = none →
      get_by_name db (pyCapitalize n) = none →
      get_by_name db (pyUpper n) = none →
      get_role_permissions db n = []) := by
  have e1 : pyCapitalize "owner" = "Owner" := by decide
  have e2 : pyUpper "owner" = "OWNER" := by decide
  have e3 : pyCapitalize "Owner" = "Owner" := by decide
  have e4 : pyUpper "Owner" = "OWNER" := by decide
  refine ⟨⟨?_, ?_, ?_⟩, ?_, ?_, ?_, ?_⟩
  · simp [get_role_permissions, e1, e2, h1, h2, h3]
  · simp [get_role_permissions, e3, e4, h2, h3]
  · simp [get_role_permissions, h3]
  · intro n rr h
    simp [get_role_permissions, h]
  · intro n rr ha hb
    simp [get_role_permissions, ha, hb]
  · intro n rr ha hb hc
    simp [get_role_permissions, ha, hb, hc]
  · intro n ha hb hc
    simp [get_role_permissions, ha, hb, hc]

/-- C5 witness: the fallback theorem applied to a concrete seeded table. -/
theorem get_role_permissions_fallback_order_witness :
    get_role_permissions c5db "owner" = [("agents", ["read"])] ∧
    get_role_permissions c5db "Owner" = [("agents", ["read"])] ∧
    get_role_permissions c5db "OWNER" = [("agents", ["read"])] := by
  have h := get_role_permissions_fallback_order c5db
    ⟨"OWNER", "active", .system, [("agents", ["read"])]⟩
    (by decide) (by decide) (by decide)
  exact h.1

/-- C2 counterexample: the spec-modelled union of every active system-scope
role's bundle grants "delete" on "llms" to this caller, but the permission
set the code actually uses denies it — the decision is made from the single
name-matched role's bundle, not from the union. -/
theorem effective_permissions_union_counterexample :
    (lookupResource (effective_permissions_spec c2db "u1" "org1") "llms").contains
        "delete" = true ∧
    check_permission c2db "u1" "org1" "llms" "delete" = false ∧
    authorize_request c2db "u1" "org1" "llms" "delete" =
      .error (.insufficientPermission "owner" "delete" "llms") := by
  decide

/-- C2 amended: the permission set used to decide authorization is the
bundle of the single security role resolved from the caller's membership
role value by the three-step name-fallback chain — authorization succeeds
exactly when that one role's bundle contains the action for the resource; no
union across roles is performed. -/
theorem check_permission_single_role (db : AuthDB)
    (user_id organization_id resource action : String) :
    check_permission db user_id organization_id resource action = true ↔
      ∃ role_name role,
        get_user_role_in_organization db user_id organization_id = some role_name ∧
        chainFind db role_name = some role ∧
        (lookupResource role.permissions resource).contains action = true := by
  unfold check_permission
  cases hm : get_user_role_in_organization db user_id organization_id with
  | none => simp
  | some role_name =>
    cases hc : chainFind db role_name with
    | none =>
      have hp : get_role_permissions db role_name = [] := by
        rw [get_role_permissions_eq_chainFind, hc]; rfl
      constructor
      · intro h
        exfalso
        simp [hp] at h
      · rintro ⟨rn, r, hrn, hr, _⟩
        injection hrn with hrn'
        subst hrn'
        rw [hc] at hr
        exact Option.noConfusion hr
    | some role =>
      have hp : get_role_permissions db role_name = role.permissions := by
        rw [get_role_permissions_eq_chainFind, hc]; rfl
      rcases hrp : role.permissions with _ | ⟨p, ps⟩
      · constructor
        · intro h
          exfalso
          simp [hp, hrp] at h
        · rintro ⟨rn, r, hrn, hr, hcontains⟩
          injection hrn with hrn'
          subst hrn'
          rw [hc] at hr
          injection hr with hr'
          subst hr'
          rw [hrp] at hcontains
          simp [lookupResource] at hcontains
      · constructor
        · intro h
          simp [hp, hrp] at h
          refine ⟨role_name, role, rfl, hc, ?_⟩
          rw [hrp]
          simpa using h
        · rintro ⟨rn, r, hrn, hr, hcontains⟩
          injection hrn with hrn'
          subst hrn'
          rw [hc] at hr
          injection hr with hr'
          subst hr'
          rw [hrp] at hcontains
          simp [hp, hrp]
          simpa using hcontains

/-- C2 amended witness: the single-role characterisation applied to a
concrete table. -/
theorem check_permission_single_role_witness :
    check_permission c2db "u1" "org1" "agents" "read" = true := by
  have h := check_permission_single_role c2db "u1" "org1" "agents" "read"
  exact h.mpr ⟨"owner", ⟨"OWNER", "active", .system, [("agents", ["read"])]⟩,
    by decide, by decide, by decide⟩

/-- C3: with no membership, `authorize_request` fails with the no-membership
error regardless of resource and action; with a membership role whose
resolved bundle lacks the action for the resource it fails with the
insufficient-permission error carrying the role name and the missing
action/resource; otherwise it returns the caller's user id. -/
theorem authorize_request_cases (db : AuthDB)
    (user_id organization_id resource action : String) :
    (get_user_role_in_organization db user_id organization_id = none →
      authorize_request db user_id organization_id resource action =
        .error (.notMember organization_id)) ∧
    (∀ role_name,
      get_user_role_in_organization db user_id organization_id = some role_name →
      (lookupResource (get_role_permissions db role_name) resource).contains action
          = false →
      authorize_request db user_id organization_id resource action =
        .error (.insufficientPermission role_name action resource)) ∧
    (∀ role_name,
      get_user_role_in_organization db user_id organization_id = some role_name →
      (lookupResource (get_role_permissions db role_name) resource).contains action
          = true →
      authorize_request db user_id organization_id resource action = .ok user_id) := by
  refine ⟨?_, ?_, ?_⟩
  · intro h
    simp [authorize_request, check_permission, h]
  · intro role_name hm hcon
    have hcp : check_permission db user_id organization_id resource action = false := by
      simp only [check_permission, hm]
      split
      · rfl
      · exact hcon
    simp [authorize_request, hcp, hm]
  · intro role_name hm hcon
    have hcp : check_permission db user_id organization_id resource action = true := by
      simp only [check_permission, hm]
      rcases hperm : get_role_permissions db role_name with _ | ⟨q, qs⟩
      · rw [hperm] at hcon
        simp [lookupResource] at hcon
      · rw [hperm] at hcon
        simpa using hcon
    simp [authorize_request, hcp]

/-- C3 witness: the three authorization outcomes on a concrete table. -/
theorem authorize_request_cases_witness :
    authorize_request c2db "u2" "org1" "agents" "read" =
      .error (.notMember "org1") ∧
    authorize_request c2db "u1" "org1" "llms" "delete" =
      .error (.insufficientPermission "owner" "delete" "llms") ∧
    authorize_request c2db "u1" "org1" "agents" "read" = .ok "u1" := by
  refine ⟨?_, ?_, ?_⟩
  · exact (authorize_request_cases c2db "u2" "org1" "agents" "read").1 (by decide)
  · exact (authorize_request_cases c2db "u1" "org1" "llms" "delete").2.1 "owner"
      (by decide) (by decide)
  · exact (authorize_request_cases c2db "u1" "org1" "agents" "read").2.2 "owner"
      (by decide) (by decide)

/-- C8 counterexample: a denied call performs two membership lookups and two
role-bundle lookups — not at most one of each as claimed. -/
theorem authorize_lookup_count_counterexample :
    (authorize_request_counts c2db "u1" "org1" "llms" "delete").2.1 = 2 ∧
    (authorize_request_counts c2db "u1" "org1" "llms" "delete").2.2 = 2 := by
  decide

/-- C8 amended: every call to `authorize_request` performs at most two
membership lookups and at most two role-bundle lookups; a successful call
performs exactly one of each (the second pair occurs only on the denial
path, to build the error message). -/
theorem authorize_lookup_counts_bounded (db : AuthDB)
    (user_id organization_id resource action : String) :
    (authorize_request_counts db user_id organization_id resource action).2.1 ≤ 2 ∧
    (authorize_request_counts db user_id organization_id resource action).2.2 ≤ 2 ∧
    ((authorize_request_counts db user_id organization_id resource action).1
        = .ok user_id →
      (authorize_request_counts db user_id organization_id resource action).2.1 = 1 ∧
      (authorize_request_counts db user_id organization_id resource action).2.2 = 1) := by
  unfold authorize_request_counts check_permission_counts
  cases hm : get_user_role_in_organization db user_id organization_id with
  | none => simp
  | some role_name =>
    by_cases he : (get_role_permissions db role_name).isEmpty
    · simp [he, hm]
    · by_cases hco :
        action ∈ lookupResource (get_role_permissions db role_name) resource
      · simp [he, hm, hco]
      · simp [he, hm, hco]

/-- C8 amended witness: a successful authorization performs exactly one
membership lookup and one role-bundle lookup. -/
theorem authorize_lookup_counts_bounded_witness :
    (authorize_request_counts c2db "u1" "org1" "agents" "read").2.1 = 1 ∧
    (authorize_request_counts c2db "u1" "org1" "agents" "read").2.2 = 1 := by
  have h := authorize_lookup_counts_bounded c2db "u1" "org1" "agents" "read"
  exact h.2.2 (by decide)

/-- C7: on every exit path of `execute_atomic` — all steps succeed, a step
raises, or the commit itself fails — the transaction-context flag is false
afterwards. -/
theorem execute_atomic_clears_context (db : Session) (steps : List Step) :
    (execute_atomic db steps).ctxActive = false := by
  unfold execute_atomic
  rcases h : runStepsAux ⟨db, true, []⟩ none 0 steps with ⟨g1, r⟩
  cases r with
  | ok res =>
    cases hc : g1.sess.commit <;> simp [h, hc]
  | error e =>
    simp [h]

/-- C9: while a unit is open, a flushed-but-uncommitted row that the direct
identifier lookup does not return is still returned by `get_by_id` through
the filtered-query fallback. -/
theorem get_by_id_transaction_fallback (s : Session) (entity_id : Nat) (r : Row)
    (hmiss : s.directGet entity_id = none)
    (hview : s.queryFirst entity_id = some r) :
    get_by_id true s entity_id = some r := by
  simp [get_by_id, hmiss, hview]

/-- C9 witness: a row present only in the session view (id 7, spuriously
missed by `session.get`) is returned inside a transaction. -/
theorem get_by_id_transaction_fallback_witness :
    get_by_id true ⟨[], [(7, [("n", some 1)])], [7], none⟩ 7 = some [("n", some 1)] :=
  get_by_id_transaction_fallback ⟨[], [(7, [("n", some 1)])], [7], none⟩ 7
    [("n", some 1)] (by decide) (by decide)

/-- C6 failing input: `delete` inside an active transaction context commits
immediately (removing row 1 from the persisted table and persisting the
still-uncommitted row 2 along the way), while `create` and `update` without
an explicit instruction defer as the contract requires. -/
theorem delete_commits_inside_transaction :
    c6state.ctx = true ∧
    (runOp c6state (.deleteOp 1)).1.sess.base = [(2, [("y", some 2)])] ∧
    (runOp c6state (.createOp 3 [("z", some 3)] none)).1.sess.base
      = c6state.sess.base ∧
    (runOp c6state (.updateOp 2 [("y", some 9)] none)).1.sess.base
      = c6state.sess.base :=
  ⟨rfl, rfl, rfl, rfl⟩

/-- The function `setField` stores the assigned value under the field. -/
lemma find?_setField (row : Row) (f : String) (v : Option Val) :
    (setField row f v).find? (fun p => p.1 == f) = some (f, v) := by
  induction row with
  | nil => simp [setField]
  | cons p rest ih =>
    by_cases h : p.1 = f
    · simp [setField, h]
    · simp [setField, h, ih]

/-- The function `setField` leaves every other field unchanged. -/
lemma getField_setField_ne (row : Row) (f g : String) (v : Option Val)
    (hne : f ≠ g) :
    getField (setField row f v) g = getField row g := by
  induction row with
  | nil => simp [setField, getField, hne]
  | cons p rest ih =>
    by_cases h : p.1 = f
    · simp [setField, getField, h, hne, Ne.symm hne]
    · by_cases h2 : p.1 = g
      · simp [setField, getField, h, h2, Ne.symm hne]
      · simpa [setField, getField, h, h2] using ih

/-- The function `applySetattrs` leaves a field unchanged when the field is not named in
the kwargs. -/
lemma applySetattrs_not_named (row : Row) (kwargs : List (String × Option Val))
    (f : String) (h : lookupKw kwargs f = none) :
    getField (applySetattrs row kwargs) f = getField row f := by
  induction kwargs generalizing row with
  | nil => simp [applySetattrs]
  | cons kv rest ih =>
    rcases kv with ⟨k, v⟩
    have hk : ¬k = f := by
      intro hkf
      simp [lookupKw, hkf] at h
    have hrest : lookupKw rest f = none := by
      simpa [lookupKw, hk] using h
    cases v with
    | none => simpa [applySetattrs] using ih row hrest
    | some x =>
      rw [applySetattrs]
      rw [ih (setField row k (some x)) hrest]
      exact getField_setField_ne row k f (some x) hk

/-- A field absent from the kwargs keys is not looked up. -/
lemma lookupKw_eq_none_of_not_mem (kwargs : List (String × Option Val)) (f : String)
    (h : f ∉ kwargs.map Prod.fst) : lookupKw kwargs f = none := by
  induction kwargs with
  | nil => simp [lookupKw]
  | cons kv rest ih =>
    rcases kv with ⟨k, v⟩
    simp only [List.map_cons, List.mem_cons, not_or] at h
    have hk : ¬k = f := fun hkf => h.1 hkf.symm
    simpa [lookupKw, hk] using ih h.2

/-- A kwargs field supplied as Python `None` is skipped, so the entity keeps
its previous value for it (kwargs keys are unique, as Python guarantees). -/
lemma applySetattrs_supplied_none (row : Row) (kwargs : List (String × Option Val))
    (f : String) (hnodup : (kwargs.map Prod.fst).Nodup)
    (h : lookupKw kwargs f = some none) :
    getField (applySetattrs row kwargs) f = getField row f := by
  induction kwargs generalizing row with
  | nil => simp [lookupKw] at h
  | cons kv rest ih =>
    rcases kv with ⟨k, v⟩
    have hnodup' : (rest.map Prod.fst).Nodup :=
      (List.nodup_cons.mp (by simpa using hnodup)).2
    by_cases hk : k = f
    · subst hk
      have hv : v = none := by simpa [lookupKw] using h
      subst hv
      have hnm : k ∉ rest.map Prod.fst :=
        (List.nodup_cons.mp (by simpa using hnodup)).1
      rw [applySetattrs]
      exact applySetattrs_not_named row rest k (lookupKw_eq_none_of_not_mem rest k hnm)
    · have hrest : lookupKw rest f = some none := by simpa [lookupKw, hk] using h
      cases v with
      | none =>
        rw [applySetattrs]
        exact ih row hnodup' hrest
      | some x =>
        rw [applySetattrs]
        rw [ih (setField row k (some x)) hnodup' hrest]
        exact getField_setField_ne row k f (some x) hk

/-- The kwargs loop never writes NULL: a field that is NULL after the loop
was already NULL before. -/
lemma applySetattrs_no_new_null (row : Row) (kwargs : List (String × Option Val))
    (f : String) :
    getField (applySetattrs row kwargs) f = some none → getField row f = some none := by
  induction kwargs generalizing row with
  | nil =>
    intro h
    simpa [applySetattrs] using h
  | cons kv rest ih =>
    rcases kv with ⟨k, v⟩
    cases v with
    | none =>
      intro h
      rw [applySetattrs] at h
      exact ih row h
    | some x =>
      intro h
      rw [applySetattrs] at h
      have h2 := ih (setField row k (some x)) h
      by_cases hk : k = f
      · subst hk
        rw [getField, find?_setField] at h2
        simp at h2
      · rw [getField_setField_ne row k f (some x) hk] at h2
        exact h2

/-- Replacing the stored row makes the replacement the row found under the
identifier. -/
lemma find?_replaceRow (l : List (Nat × Row)) (entity_id : Nat) (r : Row)
    (h : (l.find? (fun p => p.1 == entity_id)).isSome = true) :
    (replaceRow l entity_id r).find? (fun p => p.1 == entity_id)
      = some (entity_id, r) := by
  induction l with
  | nil => simp [List.find?] at h
  | cons p rest ih =>
    by_cases hp : p.1 = entity_id
    · simp [replaceRow, hp]
    · have h' : (rest.find? (fun p => p.1 == entity_id)).isSome = true := by
        simpa [List.find?_cons, hp] using h
      simpa [replaceRow, hp] using ih h'

/-- A successful lookup through the session view yields the stored pair. -/
lemma view_find_pair (l : List (Nat × Row)) (entity_id : Nat) (row : Row)
    (h : (l.find? (fun p => p.1 == entity_id)).map (fun p => p.2) = some row) :
    l.find? (fun p => p.1 == entity_id) = some (entity_id, row) := by
  rcases hf : l.find? (fun p => p.1 == entity_id) with _ | q
  · rw [hf] at h
    simp at h
  · rw [hf] at h
    have hq := List.find?_some hf
    rcases q with ⟨qi, qr⟩
    simp at h hq
    subst hq
    subst h
    exact hf

/-- Whenever `get_by_id` returns a row, that row is the one stored in the
session view under the identifier. -/
lemma get_by_id_some_view (inTx : Bool) (s : Session) (entity_id : Nat) (row : Row)
    (h : get_by_id inTx s entity_id = some row) :
    s.view.find? (fun p => p.1 == entity_id) = some (entity_id, row) := by
  have hq : Session.queryFirst s entity_id = some row := by
    unfold get_by_id at h
    rcases hd : s.directGet entity_id with _ | r0
    · rw [hd] at h
      cases inTx with
      | false => simp at h
      | true => simpa using h
    · rw [hd] at h
      simp only [Option.some.injEq] at h
      subst h
      unfold Session.directGet at hd
      by_cases hm : s.getMisses.contains entity_id
      · rw [if_pos hm] at hd
        exact absurd hd (by simp)
      · rw [if_neg hm] at hd
        exact hd
  exact view_find_pair s.view entity_id row hq

/-- C10: the repository `update` skips every kwargs field supplied as
`None`, leaves every field not named in the call unchanged, can never set a
stored field to NULL, and stores exactly the entity with the non-`None`
kwargs applied. -/
theorem update_preserves_unnamed_and_none_fields
    (row : Row) (kwargs : List (String × Option Val)) (f : String)
    (hnodup : (kwargs.map Prod.fst).Nodup) :
    (lookupKw kwargs f = none →
      getField (applySetattrs row kwargs) f = getField row f) ∧
    (lookupKw kwargs f = some none →
      getField (applySetattrs row kwargs) f = getField row f) ∧
    (getField (applySetattrs row kwargs) f = some none →
      getField row f = some none) ∧
    (∀ (g : ReqState) (entity_id : Nat) (auto_commit : Option Bool),
      get_by_id g.ctx g.sess entity_id = some row →
      resolveAutoCommit auto_commit g.ctx = false →
      (runOp g (.updateOp entity_id kwargs auto_commit)).1.sess.view.find?
          (fun p => p.1 == entity_id) = some (entity_id, applySetattrs row kwargs)) := by
  refine ⟨applySetattrs_not_named row kwargs f,
    applySetattrs_supplied_none row kwargs f hnodup,
    applySetattrs_no_new_null row kwargs f, ?_⟩
  intro g entity_id auto_commit hrow hauto
  have hview := get_by_id_some_view g.ctx g.sess entity_id row hrow
  have hsome : (g.sess.view.find? (fun p => p.1 == entity_id)).isSome = true := by
    rw [hview]; rfl
  simp only [runOp, hrow, hauto, if_false]
  exact find?_replaceRow g.sess.view entity_id (applySetattrs row kwargs) hsome

/-- C10 witness: updating with `a=None, c=3` keeps the previous value of `a`
and the unmentioned `b`. -/
theorem update_preserves_unnamed_and_none_fields_witness :
    getField (applySetattrs [("a", some 1), ("b", none)]
        [("a", none), ("c", some 3)]) "a"
      = getField [("a", some 1), ("b", none)] "a" ∧
    getField (applySetattrs [("a", some 1), ("b", none)]
        [("a", none), ("c", some 3)]) "b"
      = getField [("a", some 1), ("b", none)] "b" := by
  have h1 := update_preserves_unnamed_and_none_fields
    [("a", some 1), ("b", none)] [("a", none), ("c", some 3)] "a" (by decide)
  have h2 := update_preserves_unnamed_and_none_fields
    [("a", some 1), ("b", none)] [("a", none), ("c", some 3)] "b" (by decide)
  exact ⟨h1.2.1 (by decide), h2.1 (by decide)⟩

/-- A successful commit does not change the commit-failure flag. -/
lemma commit_ok_fail (s s2 : Session) (h : s.commit = .ok s2) :
    s2.failOnCommit = s.failOnCommit := by
  unfold Session.commit at h
  cases hf : s.failOnCommit with
  | some e =>
    rw [hf] at h
    exact absurd h (by simp)
  | none =>
    rw [hf] at h
    injection h with h'
    rw [← h']

/-- A successful commit persists exactly the session-visible state. -/
lemma commit_ok_base (s s2 : Session) (h : s.commit = .ok s2) :
    s2.base = s.view := by
  unfold Session.commit at h
  cases hf : s.failOnCommit with
  | some e =>
    rw [hf] at h
    exact absurd h (by simp)
  | none =>
    rw [hf] at h
    injection h with h'
    rw [← h']

/-- One repository call preserves the context flag and the commit-failure
flag, and appends only repository-commit events to the log. -/
lemma runOp_shape (g : ReqState) (op : RepoOp) :
    (runOp g op).1.ctx = g.ctx ∧
    (runOp g op).1.sess.failOnCommit = g.sess.failOnCommit ∧
    ∃ t, (runOp g op).1.log = g.log ++ t ∧ ∀ e ∈ t, e = Event.stepCommit := by
  cases op with
  | createOp entity_id row auto_commit =>
    simp only [runOp]
    split
    · split
      · rename_i s2 hc
        exact ⟨rfl, (commit_ok_fail _ s2 hc).trans rfl,
          [Event.stepCommit], rfl, by simp⟩
      · exact ⟨rfl, rfl, [], by simp, by simp⟩
    · exact ⟨rfl, rfl, [], by simp, by simp⟩
  | updateOp entity_id kwargs auto_commit =>
    simp only [runOp]
    split
    · exact ⟨rfl, rfl, [], by simp, by simp⟩
    · split
      · split
        · rename_i s2 hc
          exact ⟨rfl, (commit_ok_fail _ s2 hc).trans rfl,
            [Event.stepCommit], rfl, by simp⟩
        · exact ⟨rfl, rfl, [], by simp, by simp⟩
      · exact ⟨rfl, rfl, [], by simp, by simp⟩
  | deleteOp entity_id =>
    simp only [runOp]
    split
    · exact ⟨rfl, rfl, [], by simp, by simp⟩
    · split
      · rename_i s2 hc
        exact ⟨rfl, (commit_ok_fail _ s2 hc).trans rfl,
          [Event.stepCommit], rfl, by simp⟩
      · exact ⟨rfl, rfl, [], by simp, by simp⟩
  | raiseOp e => exact ⟨rfl, rfl, [], by simp [runOp], by simp⟩

/-- A list of repository calls preserves the context flag and the
commit-failure flag, and appends only repository-commit events. -/
lemma runOps_shape (ops : List RepoOp) : ∀ g : ReqState,
    (runOps g ops).1.ctx = g.ctx ∧
    (runOps g ops).1.sess.failOnCommit = g.sess.failOnCommit ∧
    ∃ t, (runOps g ops).1.log = g.log ++ t ∧ ∀ e ∈ t, e = Event.stepCommit := by
  induction ops with
  | nil => exact fun g => ⟨rfl, rfl, [], by simp [runOps], by simp⟩
  | cons op rest ih =>
    intro g
    obtain ⟨h1, h2, t1, hl1, ht1⟩ := runOp_shape g op
    rw [runOps]
    cases hop : runOp g op with
    | mk g1 oe =>
      rw [hop] at h1 h2 hl1
      cases oe with
      | none =>
        obtain ⟨h1', h2', t2, hl2, ht2⟩ := ih g1
        refine ⟨h1'.trans h1, h2'.trans h2, t1 ++ t2, ?_, ?_⟩
        · rw [hl2, hl1, List.append_assoc]
        · intro e he
          rcases List.mem_append.mp he with he1 | he2
          · exact ht1 e he1
          · exact ht2 e he2
      | some e => exact ⟨h1, h2, t1, hl1, ht1⟩

/-- The step loop preserves the context flag and the commit-failure flag,
appends no orchestrator events to the log, and — when it completes without
raising — logs exactly the submitted steps in submission order and returns
the last step's value. -/
lemma runStepsAux_shape (steps : List Step) : ∀ (g : ReqState) (acc : Option Nat) (i : Nat),
    (runStepsAux g acc i steps).1.ctx = g.ctx ∧
    (runStepsAux g acc i steps).1.sess.failOnCommit = g.sess.failOnCommit ∧
    ∃ t, (runStepsAux g acc i steps).1.log = g.log ++ t ∧
      Event.orchCommit ∉ t ∧
      (∀ res, (runStepsAux g acc i steps).2 = .ok res →
        t.filter Event.isStepRun = (List.range' i steps.length).map Event.stepRun ∧
        res = lastRet acc steps) := by
  induction steps with
  | nil =>
    intro g acc i
    refine ⟨rfl, rfl, [], by simp [runStepsAux], by simp, ?_⟩
    intro res h
    refine ⟨by simp, ?_⟩
    simp only [runStepsAux] at h
    injection h with h'
    rw [← h']
    rfl
  | cons st rest ih =>
    intro g acc i
    obtain ⟨hc1, hf1, t1, hl1, ht1⟩ :=
      runOps_shape st.ops { g with log := g.log ++ [Event.stepRun i] }
    simp only [runStepsAux]
    cases hop : runOps { g with log := g.log ++ [Event.stepRun i] } st.ops with
    | mk g2 oe =>
      rw [hop] at hc1 hf1 hl1
      cases oe with
      | none =>
        obtain ⟨hc2, hf2, t2, hl2, hno2, hsucc2⟩ := ih g2 (some st.ret) (i + 1)
        refine ⟨hc2.trans (hc1.trans rfl), hf2.trans (hf1.trans rfl),
          [Event.stepRun i] ++ t1 ++ t2, ?_, ?_, ?_⟩
        · rw [hl2, hl1]
          simp [List.append_assoc]
        · intro hmem
          rcases List.mem_append.mp hmem with h12 | h3
          · rcases List.mem_append.mp h12 with h1 | h2
            · simp at h1
            · exact absurd (ht1 _ h2) (by simp)
          · exact hno2 h3
        · intro res hres
          obtain ⟨hfil, hlast⟩ := hsucc2 res hres
          constructor
          · rw [List.filter_append, List.filter_append]
            have hft1 : t1.filter Event.isStepRun = [] :=
              List.filter_eq_nil_iff.mpr
                (fun a ha => by rw [ht1 a ha]; simp [Event.isStepRun])
            rw [hft1, hfil]
            rw [show (st :: rest).length = rest.length + 1 from rfl,
              List.range'_succ]
            simp [Event.isStepRun]
          · rw [lastRet]
            exact hlast
      | some e =>
        refine ⟨hc1.trans rfl, hf1.trans rfl, [Event.stepRun i] ++ t1, ?_, ?_, ?_⟩
        · rw [hl1]
          simp [List.append_assoc]
        · intro hmem
          rcases List.mem_append.mp hmem with h1 | h2
          · simp at h1
          · exact absurd (ht1 _ h2) (by simp)
        · intro res hres
          exact absurd hres (by simp)

/-- The carried `result` value after a completed loop is the last step's
return value. -/
lemma lastRet_getLast : ∀ (steps : List Step) (hne : steps ≠ []) (acc : Option Nat),
    lastRet acc steps = some ((steps.getLast hne).ret)
  | [], hne, _ => absurd rfl hne
  | [_], _, _ => rfl
  | st :: st2 :: rest2, _, acc => by
    rw [lastRet]
    rw [lastRet_getLast (st2 :: rest2) (by simp) (some st.ret)]
    simp [List.getLast_cons]

/-- C4: when every step completes without raising (and the store accepts the
final commit), `execute_atomic` runs the steps strictly in submission order,
issues exactly one orchestrator commit as the last event after all steps,
and returns the result of the last step. -/
theorem execute_atomic_success_protocol (db : Session) (steps : List Step)
    (g1 : ReqState) (res : Option Nat)
    (hrun : runStepsAux ⟨db, true, []⟩ none 0 steps = (g1, .ok res))
    (hcommit : db.failOnCommit = none)
    (hne : steps ≠ []) :
    (execute_atomic db steps).result = .ok (some ((steps.getLast hne).ret)) ∧
    (execute_atomic db steps).log.filter Event.isStepRun
      = (List.range steps.length).map Event.stepRun ∧
    (execute_atomic db steps).log.count Event.orchCommit = 1 ∧
    (execute_atomic db steps).log.getLast? = some Event.orchCommit := by
  obtain ⟨hc, hf, t, hl, hno, hsucc⟩ := runStepsAux_shape steps ⟨db, true, []⟩ none 0
  rw [hrun] at hc hf hl hsucc
  obtain ⟨hfil, hlast⟩ := hsucc res rfl
  have hfail : g1.sess.failOnCommit = none := hf.trans hcommit
  have hcommitok : g1.sess.commit =
      .ok ⟨g1.sess.view, g1.sess.view, g1.sess.getMisses, g1.sess.failOnCommit⟩ := by
    unfold Session.commit
    rw [hfail]
  have hx : execute_atomic db steps =
      ⟨.ok res, ⟨g1.sess.view, g1.sess.view, g1.sess.getMisses, g1.sess.failOnCommit⟩,
       false, g1.log ++ [Event.orchCommit]⟩ := by
    simp only [execute_atomic]
    rw [hrun]
    simp [hcommitok]
  rw [hx]
  refine ⟨?_, ?_, ?_, ?_⟩
  · rw [hlast, lastRet_getLast steps hne none]
  · rw [hl]
    simp only [List.nil_append, List.filter_append]
    rw [hfil]
    simp [Event.isStepRun, List.range_eq_range']
  · rw [hl]
    simp only [List.nil_append, List.count_append]
    rw [List.count_eq_zero.mpr hno]
    simp
  · rw [hl]
    simp only [List.nil_append]
    exact List.getLast?_concat _

/-- C4 witness: a two-step unit that creates two rows commits once after
both steps, in order, and returns the second step's value. -/
theorem execute_atomic_success_protocol_witness :
    (execute_atomic ⟨[], [], [], none⟩
        [⟨[.createOp 1 [("x", some 1)] none], 5⟩,
         ⟨[.createOp 2 [("y", some 2)] none], 9⟩]).result = .ok (some 9) ∧
    (execute_atomic ⟨[], [], [], none⟩
        [⟨[.createOp 1 [("x", some 1)] none], 5⟩,
         ⟨[.createOp 2 [("y", some 2)] none], 9⟩]).log.filter Event.isStepRun
      = [Event.stepRun 0, Event.stepRun 1] ∧
    (execute_atomic ⟨[], [], [], none⟩
        [⟨[.createOp 1 [("x", some 1)] none], 5⟩,
         ⟨[.createOp 2 [("y", some 2)] none], 9⟩]).log.count Event.orchCommit = 1 := by
  have h := execute_atomic_success_protocol ⟨[], [], [], none⟩
    [⟨[.createOp 1 [("x", some 1)] none], 5⟩,
     ⟨[.createOp 2 [("y", some 2)] none], 9⟩]
    ⟨⟨[], [(1, [("x", some 1)]), (2, [("y", some 2)])], [], none⟩, true,
      [Event.stepRun 0, Event.stepRun 1]⟩
    (some 9) rfl rfl (by simp)
  exact ⟨h.1, h.2.1, h.2.2.1⟩

/-- A not-explicitly-`True` `auto_commit` resolves to deferred inside an
active context. -/
lemma resolveAutoCommit_defer (auto_commit : Option Bool)
    (h : !(auto_commit == some true) = true) :
    resolveAutoCommit auto_commit true = false := by
  cases auto_commit with
  | none => rfl
  | some b =>
    cases b with
    | true => simp at h
    | false => rfl

/-- A deferring repository call made inside an active context never changes
the persisted table. -/
lemma runOp_defer (g : ReqState) (op : RepoOp) (hctx : g.ctx = true)
    (hop : defersOp op = true) :
    (runOp g op).1.sess.base = g.sess.base := by
  cases op with
  | createOp entity_id row auto_commit =>
    have hauto : resolveAutoCommit auto_commit g.ctx = false := by
      rw [hctx]
      exact resolveAutoCommit_defer auto_commit (by simpa [defersOp] using hop)
    simp [runOp, hauto]
  | updateOp entity_id kwargs auto_commit =>
    have hauto : resolveAutoCommit auto_commit g.ctx = false := by
      rw [hctx]
      exact resolveAutoCommit_defer auto_commit (by simpa [defersOp] using hop)
    cases hrow : get_by_id g.ctx g.sess entity_id with
    | none => simp [runOp, hrow]
    | some row => simp [runOp, hrow, hauto]
  | deleteOp entity_id => simp [defersOp] at hop
  | raiseOp e => rfl

/-- A list of deferring repository calls preserves the persisted table. -/
lemma runOps_defer (ops : List RepoOp) : ∀ g : ReqState, g.ctx = true →
    (∀ op ∈ ops, defersOp op = true) →
    (runOps g ops).1.sess.base = g.sess.base := by
  induction ops with
  | nil => intro g _ _; rfl
  | cons op rest ih =>
    intro g hctx hops
    rw [runOps]
    cases hop : runOp g op with
    | mk g1 oe =>
      have hb := runOp_defer g op hctx (hops op (by simp))
      have hcx := (runOp_shape g op).1
      rw [hop] at hb hcx
      cases oe with
      | none =>
        exact (ih g1 (hcx.trans hctx)
          (fun o ho => hops o (by simp [ho]))).trans hb
      | some e => exact hb

/-- A step list whose every repository call defers preserves the persisted
table. -/
lemma runStepsAux_defer (steps : List Step) :
    ∀ (g : ReqState) (acc : Option Nat) (i : Nat), g.ctx = true →
    (∀ st ∈ steps, ∀ op ∈ st.ops, defersOp op = true) →
    (runStepsAux g acc i steps).1.sess.base = g.sess.base := by
  induction steps with
  | nil => intro g acc i _ _; rfl
  | cons st rest ih =>
    intro g acc i hctx hops
    simp only [runStepsAux]
    cases hop : runOps { g with log := g.log ++ [Event.stepRun i] } st.ops with
    | mk g2 oe =>
      have hb := runOps_defer st.ops { g with log := g.log ++ [Event.stepRun i] }
        hctx (hops st (by simp))
      have hcx := (runOps_shape st.ops { g with log := g.log ++ [Event.stepRun i] }).1
      rw [hop] at hb hcx
      cases oe with
      | none =>
        exact (ih g2 (some st.ret) (i + 1) (hcx.trans hctx)
          (fun s hs o ho => hops s (by simp [hs]) o ho)).trans hb
      | some e => exact hb

/-- C1 amended: for a unit `[A, B]` whose writes all defer their commits
(creates/updates without an explicit commit-now; no deletes) where the run
raises `e`, `execute_atomic` leaves the persisted state exactly as before
the call, surfaces `mapExc e`, clears the context flag, and — unless `e` is
already an HTTPException, which is re-raised unchanged — the error is mapped
to exactly one of the four taxonomy kinds. -/
theorem execute_atomic_rollback_deferred (db : Session) (A B : Step)
    (g1 : ReqState) (e : Exc)
    (hA : ∀ op ∈ A.ops, defersOp op = true)
    (hB : ∀ op ∈ B.ops, defersOp op = true)
    (hrun : runStepsAux ⟨db, true, []⟩ none 0 [A, B] = (g1, .error e)) :
    (execute_atomic db [A, B]).sess.base = db.base ∧
    (execute_atomic db [A, B]).result = .error (mapExc e) ∧
    (execute_atomic db [A, B]).ctxActive = false ∧
    (e.isHTTP = false → ∃! k, excTaxonomy e = some k) := by
  have hsteps : ∀ st ∈ [A, B], ∀ op ∈ st.ops, defersOp op = true := by
    intro st hst
    rcases List.mem_cons.mp hst with rfl | hst2
    · exact hA
    · rcases List.mem_cons.mp hst2 with rfl | h3
      · exact hB
      · simp at h3
  have hbase := runStepsAux_defer [A, B] ⟨db, true, []⟩ none 0 rfl hsteps
  rw [hrun] at hbase
  have hx : execute_atomic db [A, B] =
      ⟨.error (mapExc e), g1.sess.rollback, false,
       g1.log ++ [Event.orchRollback]⟩ := by
    simp only [execute_atomic]
    rw [hrun]
  refine ⟨?_, ?_, ?_, ?_⟩
  · rw [hx]
    exact hbase
  · rw [hx]
  · rw [hx]
  · intro hh
    cases e with
    | httpExc c d => simp [Exc.isHTTP] at hh
    | conflictError m =>
      exact ⟨TaxKind.conflict, rfl, fun y hy => (Option.some.inj hy).symm⟩
    | integrityError m =>
      exact ⟨TaxKind.integrityViolation, rfl, fun y hy => (Option.some.inj hy).symm⟩
    | dataError m =>
      exact ⟨TaxKind.invalidData, rfl, fun y hy => (Option.some.inj hy).symm⟩
    | sqlalchemyError m =>
      exact ⟨TaxKind.unexpected, rfl, fun y hy => (Option.some.inj hy).symm⟩
    | otherExc m =>
      exact ⟨TaxKind.unexpected, rfl, fun y hy => (Option.some.inj hy).symm⟩

/-- C1 witness: a deferred create followed by a step raising a
`ConflictError` rolls back fully and surfaces a 409 of the single Conflict
kind. -/
theorem execute_atomic_rollback_deferred_witness :
    (execute_atomic c1db
        [⟨[.createOp 2 [("y", some 2)] none], 1⟩,
         ⟨[.raiseOp (.conflictError "duplicate name")], 2⟩]).sess.base = c1db.base ∧
    (execute_atomic c1db
        [⟨[.createOp 2 [("y", some 2)] none], 1⟩,
         ⟨[.raiseOp (.conflictError "duplicate name")], 2⟩]).result
      = .error ⟨409, "duplicate name"⟩ ∧
    (∃! k, excTaxonomy (.conflictError "duplicate name") = some k) := by
  have h := execute_atomic_rollback_deferred c1db
    ⟨[.createOp 2 [("y", some 2)] none], 1⟩
    ⟨[.raiseOp (.conflictError "duplicate name")], 2⟩
    ⟨⟨[(1, [("x", some 1)])], [(1, [("x", some 1)]), (2, [("y", some 2)])], [], none⟩,
      true, [Event.stepRun 0, Event.stepRun 1]⟩
    (.conflictError "duplicate name")
    (by decide) (by decide) rfl
  exact ⟨h.1, h.2.1, h.2.2.2 rfl⟩

/-- C1 counterexample: with step A performing a repository `delete` (which
always commits immediately) and step B raising an `HTTPException`, the
persisted state after the failed unit differs from the state before the
call, and the surfaced error (a re-raised 404) is of none of the four
taxonomy kinds. -/
theorem execute_atomic_rollback_counterexample :
    (execute_atomic c1db
        [⟨[.deleteOp 1], 0⟩,
         ⟨[.raiseOp (.httpExc 404 "not found")], 0⟩]).sess.base ≠ c1db.base ∧
    (execute_atomic c1db
        [⟨[.deleteOp 1], 0⟩,
         ⟨[.raiseOp (.httpExc 404 "not found")], 0⟩]).result
      = .error ⟨404, "not found"⟩ ∧
    excTaxonomy (.httpExc 404 "not found") = none := by
  refine ⟨?_, rfl, rfl⟩
  decide

end ControlTower
